import Mathlib

/-!
Shallow embedding of the redman acquisition-and-selection pipeline
(src/lib.rs): catalog normalization, variant selection, persistence,
dedup filters, priority selection and the download state machine.
-/

namespace Redman

/-- A stored release record (struct `Torrent` in the source). -/
structure Torrent where
  id : Nat
  album_name : String
  artist_names : String
  year : Nat
  release_type : Nat
  media : String
  format : String
  encoding : String
  file_count : Nat
  size : Nat
  weight : Nat
deriving DecidableEq, Repr

/-- Rank of a `(media, encoding)` pair, as in the `sort_by_key` closure of
`store_data`: `(CD, V0)=0 < (WEB, V0)=1 < (CD, 320)=2 < (WEB, 320)=3`,
anything else `99`. -/
def rank (t : Torrent) : Nat :=
  if t.media = "CD" ∧ t.encoding = "V0 (VBR)" then 0
  else if t.media = "WEB" ∧ t.encoding = "V0 (VBR)" then 1
  else if t.media = "CD" ∧ t.encoding = "320" then 2
  else if t.media = "WEB" ∧ t.encoding = "320" then 3
  else 99

/-- Second filter of `store_data`: media, format and encoding restriction. -/
def goodVariant (t : Torrent) : Bool :=
  (t.media == "CD" || t.media == "WEB")
    && t.format == "MP3"
    && (t.encoding == "V0 (VBR)" || t.encoding == "320")

/-- The two chained `.filter` calls of `store_data` applied to one group's
candidate list. -/
def survivors (g : List Torrent) : List Torrent :=
  (g.filter (fun t => t.release_type == 1)).filter goodVariant

/-- Stable insertion by `rank`; an element is placed before the first element
of strictly larger-or-equal rank that it does not tie-break against, i.e.
before the first element whose rank it is `≤`.  Equal-rank elements keep
their input order, matching Rust's stable `sort_by_key`. -/
def insertByRank (t : Torrent) : List Torrent → List Torrent
  | [] => [t]
  | u :: l => if rank t ≤ rank u then t :: u :: l else u :: insertByRank t l

/-- Stable sort by `rank` (insertion sort).  Rust's `Vec::sort_by_key` is a
stable sort by the same key; stable sorts by one key agree extensionally,
so this is the same function on lists. -/
def sortByRank : List Torrent → List Torrent
  | [] => []
  | t :: l => insertByRank t (sortByRank l)

/-- The variant-selection rule of `store_data`: filter the group's candidates,
stable-sort the survivors by rank, take the first. -/
def select_variant (g : List Torrent) : Option Torrent :=
  (sortByRank (survivors g)).head?

theorem mem_insertByRank {u t : Torrent} {l : List Torrent}
    (h : u ∈ insertByRank t l) : u = t ∨ u ∈ l := by
  induction l with
  | nil => simpa [insertByRank] using h
  | cons v l ih =>
    by_cases hr : rank t ≤ rank v
    · simpa [insertByRank, hr] using h
    · simp only [insertByRank, hr, if_false, List.mem_cons] at h
      rcases h with h | h
      · exact Or.inr (by simp [h])
      · rcases ih h with h | h
        · exact Or.inl h
        · exact Or.inr (by simp [h])

theorem mem_of_mem_sortByRank {u : Torrent} {l : List Torrent}
    (h : u ∈ sortByRank l) : u ∈ l := by
  induction l with
  | nil => simp [sortByRank] at h
  | cons t l ih =>
    rcases mem_insertByRank (l := sortByRank l) (h := h) with h' | h'
    · simp [h']
    · exact List.mem_cons_of_mem _ (ih h')

theorem sortByRank_ne_nil {l : List Torrent} (h : l ≠ []) : sortByRank l ≠ [] := by
  cases l with
  | nil => exact absurd rfl h
  | cons t l =>
    show insertByRank t (sortByRank l) ≠ []
    cases hs : sortByRank l with
    | nil => simp [insertByRank]
    | cons u s =>
      by_cases hr : rank t ≤ rank u <;> simp [insertByRank, hr]

/-- Membership in the filtered candidate list, unfolded to the filter
conditions of the source. -/
theorem mem_survivors (g : List Torrent) (t : Torrent) :
    t ∈ survivors g ↔
      (t ∈ g ∧ t.release_type = 1 ∧ t.format = "MP3" ∧
        (t.media = "CD" ∨ t.media = "WEB") ∧
        (t.encoding = "V0 (VBR)" ∨ t.encoding = "320")) := by
  simp only [survivors, goodVariant, List.mem_filter, Bool.and_eq_true,
    Bool.or_eq_true, beq_iff_eq]
  tauto

/-- The head of the stable sort is the leftmost minimal-rank element: it splits
the input as `l₁ ++ t :: l₂` with every element of `l₁` of strictly larger
rank and every element of `l` of larger-or-equal rank. -/
theorem head_sortByRank (l : List Torrent) (hl : l ≠ []) :
    ∃ t l₁ l₂, l = l₁ ++ t :: l₂ ∧ (sortByRank l).head? = some t ∧
      (∀ u ∈ l₁, rank t < rank u) ∧ (∀ u ∈ l, rank t ≤ rank u) := by
  induction l with
  | nil => exact absurd rfl hl
  | cons x xs ih =>
    by_cases hxs' : xs = []
    · subst hxs'
      exact ⟨x, [], [], by simp, by simp [sortByRank, insertByRank], by simp, by simp⟩
    · obtain ⟨t, l₁, l₂, hdec, hhead, hlt, hle⟩ := ih hxs'
      have hsxs : sortByRank xs ≠ [] := sortByRank_ne_nil hxs'
      obtain ⟨t', s', hs⟩ : ∃ t' s', sortByRank xs = t' :: s' := by
        cases hs : sortByRank xs with
        | nil => exact absurd hs hsxs
        | cons a b => exact ⟨a, b, rfl⟩
      have ht' : t' = t := by
        rw [hs] at hhead
        simpa using hhead
      subst ht'
      by_cases hr : rank x ≤ rank t'
      · refine ⟨x, [], xs, by simp, ?_, by simp, ?_⟩
        · show (insertByRank x (sortByRank xs)).head? = some x
          rw [hs]
          simp [insertByRank, hr]
        · intro u hu
          rcases List.mem_cons.mp hu with h | h
          · simp [h]
          · exact le_trans hr (hle u h)
      · push_neg at hr
        refine ⟨t', x :: l₁, l₂, by simp [hdec], ?_, ?_, ?_⟩
        · show (insertByRank x (sortByRank xs)).head? = some t'
          rw [hs]
          simp [insertByRank, not_le.mpr hr]
        · intro u hu
          rcases List.mem_cons.mp hu with h | h
          · simpa [h] using hr
          · exact hlt u h
        · intro u hu
          rcases List.mem_cons.mp hu with h | h
          · exact le_of_lt (by simpa [h] using hr)
          · exact hle u h

/-- A sample torrent with the given id, media and encoding, satisfying the
remaining filter conditions. -/
def mkT (i : Nat) (m e : String) : Torrent :=
  ⟨i, "Album", "Artist", 2000, 1, m, "MP3", e, 10, 1000, 10⟩

/-- The spec's example candidate list `{(WEB,320),(CD,V0),(WEB,V0)}`. -/
def C1g : List Torrent :=
  [mkT 1 ("WEB") ("320"), mkT 2 ("CD") ("V0 (VBR)"), mkT 3 ("WEB") ("V0 (VBR)")]

/-- C1: the variant selector keeps only candidates with `release_type == 1`,
`format == "MP3"`, `media ∈ {CD, WEB}` and `encoding ∈ {V0 (VBR), 320}`; the
rank of `(media, encoding)` is `(CD,V0)=0 < (WEB,V0)=1 < (CD,320)=2 <
(WEB,320)=3`; with no survivor nothing is selected, and with at least one
survivor exactly one release of minimum rank is selected, ties resolved by
first position in input order (everything before the selected release has
strictly larger rank). -/
theorem C1_variant_selection (g : List Torrent) :
    (∀ t, t ∈ survivors g ↔
      (t ∈ g ∧ t.release_type = 1 ∧ t.format = "MP3" ∧
        (t.media = "CD" ∨ t.media = "WEB") ∧
        (t.encoding = "V0 (VBR)" ∨ t.encoding = "320"))) ∧
    (∀ t : Torrent, t.media = "CD" → t.encoding = "V0 (VBR)" → rank t = 0) ∧
    (∀ t : Torrent, t.media = "WEB" → t.encoding = "V0 (VBR)" → rank t = 1) ∧
    (∀ t : Torrent, t.media = "CD" → t.encoding = "320" → rank t = 2) ∧
    (∀ t : Torrent, t.media = "WEB" → t.encoding = "320" → rank t = 3) ∧
    (survivors g = [] → select_variant g = none) ∧
    (survivors g ≠ [] →
      ∃ t l₁ l₂, select_variant g = some t ∧ survivors g = l₁ ++ t :: l₂ ∧
        (∀ u ∈ l₁, rank t < rank u) ∧ ∀ u ∈ survivors g, rank t ≤ rank u) := by
  refine ⟨?_, ?_, ?_, ?_, ?_, ?_, ?_⟩
  · exact mem_survivors g
  · intro t h1 h2; simp [rank, h1, h2]
  · intro t h1 h2; simp [rank, h1, h2]
  · intro t h1 h2; simp [rank, h1, h2]
  · intro t h1 h2; simp [rank, h1, h2]
  · intro h; simp [select_variant, h, sortByRank]
  · intro h
    obtain ⟨t, l₁, l₂, hdec, hhead, hlt, hle⟩ := head_sortByRank (survivors g) h
    exact ⟨t, l₁, l₂, hhead, hdec, hlt, hle⟩

/-- Witness for C1 at the spec's example: the survivor list is nonempty and
the selector picks the `(CD, V0)` candidate. -/
theorem C1_variant_selection_witness :
    survivors C1g ≠ [] ∧
      ∃ t l₁ l₂, select_variant C1g = some t ∧ survivors C1g = l₁ ++ t :: l₂ ∧
        (∀ u ∈ l₁, rank t < rank u) ∧ ∀ u ∈ survivors C1g, rank t ≤ rank u :=
  ⟨by decide, (C1_variant_selection C1g).2.2.2.2.2.2 (by decide)⟩

/-! ### Priority selection (`add_new_torrents_for_download`,
`filter_freeload_torrents`) -/

/-- Direct mode of the terminal selection in `add_new_torrents_for_download`:
`torrents.into_iter().take(num_torrents)`. -/
def select_direct (ts : List Torrent) (n : Nat) : List Torrent := ts.take n

/-- The `while result.len() < max_num && i < ts.len()` loop of
`filter_freeload_torrents`, with the tracker's freeload probe abstracted as
the oracle `fl`.  The first component is the accepted result, the second the
list of items actually probed, in probe order. -/
def filterFreeloadAux (fl : Torrent → Bool) :
    List Torrent → Nat → List Torrent × List Torrent
  | _, 0 => ([], [])
  | [], _ + 1 => ([], [])
  | t :: rest, need + 1 =>
    if fl t then
      let p := filterFreeloadAux fl rest need
      (t :: p.1, t :: p.2)
    else
      let p := filterFreeloadAux fl rest (need + 1)
      (p.1, t :: p.2)

/-- Function `filter_freeload_torrents`: sequentially probe items of `ts` in order,
accepting freeload items, until `max_num` are accepted or the input is
exhausted. -/
def filter_freeload_torrents (fl : Torrent → Bool) (ts : List Torrent)
    (max_num : Nat) : List Torrent × List Torrent :=
  filterFreeloadAux fl ts max_num

theorem filterFreeloadAux_spec (fl : Torrent → Bool) :
    ∀ (ts : List Torrent) (need : Nat),
      (filterFreeloadAux fl ts need).1 =
          (filterFreeloadAux fl ts need).2.filter fl ∧
        (filterFreeloadAux fl ts need).1.length ≤ need ∧
        (∃ s, (filterFreeloadAux fl ts need).2 ++ s = ts) ∧
        ((filterFreeloadAux fl ts need).1.length < need →
          (filterFreeloadAux fl ts need).2 = ts) := by
  intro ts
  induction ts with
  | nil =>
    intro need
    cases need <;> simp [filterFreeloadAux]
  | cons t rest ih =>
    intro need
    cases need with
    | zero => simp [filterFreeloadAux]
    | succ need' =>
      by_cases hfl : fl t
      · obtain ⟨h1, h2, ⟨s, hs⟩, h4⟩ := ih need'
        refine ⟨?_, ?_, ⟨s, ?_⟩, ?_⟩
        · simp [filterFreeloadAux, hfl, h1]
        · simpa [filterFreeloadAux, hfl] using h2
        · simp [filterFreeloadAux, hfl, hs]
        · intro hlen
          simp only [filterFreeloadAux, hfl, if_true, List.length_cons,
            Nat.succ_lt_succ_iff] at hlen ⊢
          simp [h4 hlen]
      · obtain ⟨h1, h2, ⟨s, hs⟩, h4⟩ := ih (need' + 1)
        refine ⟨?_, ?_, ⟨s, ?_⟩, ?_⟩
        · simp [filterFreeloadAux, hfl, h1]
        · simpa [filterFreeloadAux, hfl] using h2
        · simp [filterFreeloadAux, hfl, hs]
        · intro hlen
          simp only [filterFreeloadAux, hfl, if_false] at hlen ⊢
          simp [h4 hlen]

/-- C3: the priority selector returns at most `N` items in either terminal
mode; in freeload-only mode the accepted result is exactly the freeload
items among the probed ones, the probe walks the pool in order (the probed
list is a prefix of the pool), probing stops only once `N` items are
accepted or the input is exhausted, and a probed non-freeload item is never
returned. -/
theorem C3_priority_selector (fl : Torrent → Bool) (ts : List Torrent) (n : Nat) :
    (select_direct ts n).length ≤ n ∧
      (filter_freeload_torrents fl ts n).1.length ≤ n ∧
      (filter_freeload_torrents fl ts n).1 =
        (filter_freeload_torrents fl ts n).2.filter fl ∧
      (∀ t ∈ (filter_freeload_torrents fl ts n).1, fl t = true) ∧
      (∃ s, (filter_freeload_torrents fl ts n).2 ++ s = ts) ∧
      ((filter_freeload_torrents fl ts n).1.length = n ∨
        (filter_freeload_torrents fl ts n).2 = ts) ∧
      (∀ t ∈ (filter_freeload_torrents fl ts n).2, fl t = false →
        t ∉ (filter_freeload_torrents fl ts n).1) := by
  obtain ⟨h1, h2, h3, h4⟩ := filterFreeloadAux_spec fl ts n
  refine ⟨by simp [select_direct], h2, h1, ?_, h3, ?_, ?_⟩
  · intro t ht
    rw [show (filter_freeload_torrents fl ts n).1 = (filterFreeloadAux fl ts n).1
      from rfl, h1] at ht
    exact (List.mem_filter.mp ht).2
  · rcases Nat.lt_or_ge (filter_freeload_torrents fl ts n).1.length n with h | h
    · exact Or.inr (h4 h)
    · exact Or.inl (Nat.le_antisymm h2 h)
  · intro t _ hffalse hmem
    rw [show (filter_freeload_torrents fl ts n).1 = (filterFreeloadAux fl ts n).1
      from rfl, h1] at hmem
    have := (List.mem_filter.mp hmem).2
    simp [hffalse] at this

/-- A concrete freeload oracle for the witnesses: only even ids are freeload. -/
def flEven (t : Torrent) : Bool := t.id % 2 == 0

/-- Witness for C3: pool of three items, `N = 1`; the count bound and the
probe-filter characterisation hold at this concrete instance. -/
theorem C3_priority_selector_witness :
    (filter_freeload_torrents flEven C1g 1).1.length ≤ 1 ∧
      (filter_freeload_torrents flEven C1g 1).1 =
        (filter_freeload_torrents flEven C1g 1).2.filter flEven :=
  ⟨(C3_priority_selector flEven C1g 1).2.1,
    (C3_priority_selector flEven C1g 1).2.2.1⟩

/-! ### Dedup filters (`filter_torrents_not_in_plex_library`,
`filter_torrents_not_in_torrent_dir`) -/

/-- A library row (struct `Album` in the source). -/
structure Album where
  name : String
  artists : String
deriving DecidableEq, Repr

/-- The `transform` closure of `filter_torrents_not_in_plex_library`: keep
ASCII alphanumeric characters, then lowercase.  `Char.isAlphanum` is the
ASCII-alphanumeric test, matching Rust's `char::is_ascii_alphanumeric`, and
lowercasing a string of ASCII alphanumerics is per-character ASCII
lowercasing. -/
def transform (s : String) : String :=
  String.mk ((s.data.filter Char.isAlphanum).map Char.toLower)

/-- The matching condition inside the `any` closure: normalized artist and
normalized album both equal. -/
def plexMatch (a : Album) (t : Torrent) : Bool :=
  transform a.artists == transform t.artist_names
    && transform a.name == transform t.album_name

/-- Function `filter_torrents_not_in_plex_library`: keep the torrents matching no
library album. -/
def filter_torrents_not_in_plex_library (torrents : List Torrent)
    (plex_albums : List Album) : List Torrent :=
  torrents.filter (fun t => !(plex_albums.any (fun a => plexMatch a t)))

/-- The stored release of the spec's example. -/
def abbeyT : Torrent :=
  ⟨7, "Abbey Road", "The Beatles", 1969, 1, "CD", "MP3", "320", 17, 1000, 10⟩

/-- The library album of the spec's example. -/
def abbeyA : Album := ⟨"abbey-road!", "THE BEATLES"⟩

/-- A library album with no normalized match against `abbeyT`. -/
def revolverA : Album := ⟨"Revolver", "THE BEATLES"⟩

/-- C4: a release passes the library-overlap filter iff no library album
matches it on both normalized artist and normalized album (lowercased,
non-alphanumeric characters stripped); at the spec's example the release
`("Abbey Road", "The Beatles")` is excluded by `("abbey-road!", "THE
BEATLES")` and retained when only a non-matching album is present. -/
theorem C4_library_overlap (ts : List Torrent) (albums : List Album) :
    (∀ t, t ∈ filter_torrents_not_in_plex_library ts albums ↔
      (t ∈ ts ∧ ¬∃ a ∈ albums,
        transform a.artists = transform t.artist_names ∧
          transform a.name = transform t.album_name)) ∧
    filter_torrents_not_in_plex_library [abbeyT] [abbeyA] = [] ∧
    filter_torrents_not_in_plex_library [abbeyT] [revolverA] = [abbeyT] := by
  refine ⟨?_, by decide, by decide⟩
  intro t
  rw [filter_torrents_not_in_plex_library, List.mem_filter]
  constructor
  · rintro ⟨hmem, hcond⟩
    have hany : albums.any (fun a => plexMatch a t) = false := by
      simpa using hcond
    refine ⟨hmem, ?_⟩
    rintro ⟨a, ha, h1, h2⟩
    have hp : plexMatch a t = true := by
      rw [plexMatch, Bool.and_eq_true, beq_iff_eq, beq_iff_eq]
      exact ⟨h1, h2⟩
    have htrue : albums.any (fun a => plexMatch a t) = true :=
      List.any_eq_true.mpr ⟨a, ha, hp⟩
    rw [hany] at htrue
    exact absurd htrue (by simp)
  · rintro ⟨hmem, hno⟩
    refine ⟨hmem, ?_⟩
    have hany : albums.any (fun a => plexMatch a t) = false := by
      cases h : albums.any (fun a => plexMatch a t) with
      | false => rfl
      | true =>
        obtain ⟨a, ha, hpa⟩ := List.any_eq_true.mp h
        rw [plexMatch, Bool.and_eq_true, beq_iff_eq, beq_iff_eq] at hpa
        exact absurd ⟨a, ha, hpa.1, hpa.2⟩ hno
    simp [hany]

/-- Witness for C4: the example release is excluded, derived by applying the
filter characterisation. -/
theorem C4_library_overlap_witness :
    abbeyT ∉ filter_torrents_not_in_plex_library [abbeyT] [abbeyA] := by
  intro hmem
  have h := ((C4_library_overlap [abbeyT] [abbeyA]).1 abbeyT).mp hmem
  exact h.2 ⟨abbeyA, by simp, by decide, by decide⟩

/-- Digit-run parser modelling Rust's `str::parse::<u32>`: an optional
leading `+`, then at least one ASCII digit, value below `2^32`. -/
def parseDigits (s : List Char) : Option Nat :=
  if s ≠ [] ∧ s.all Char.isDigit then
    let v := s.foldl (fun acc c => acc * 10 + (c.toNat - 48)) 0
    if v < 2 ^ 32 then some v else none
  else none

/-- Rust `parse::<u32>` on a character list. -/
def parse_u32 (s : List Char) : Option Nat :=
  match s with
  | '+' :: rest => parseDigits rest
  | _ => parseDigits s

/-- The suffix-digit extraction of `filter_torrents_not_in_torrent_dir`:
reverse, take while ASCII digit, reverse back. -/
def trailing_digits (stem : String) : List Char :=
  (stem.data.reverse.takeWhile Char.isDigit).reverse

/-- Trailing-digit id of one file stem (`parse::<u32>().ok()` applied to the
captured span). -/
def stem_id (stem : String) : Option Nat :=
  parse_u32 (trailing_digits stem)

/-- The set of ids found in the torrent directory, as a list (the source
collects them into a `HashSet`, used only through `contains`). -/
def dir_ids (stems : List String) : List Nat :=
  stems.filterMap stem_id

/-- Function `filter_torrents_not_in_torrent_dir`: keep torrents whose id was not
found as a trailing digit run of some file stem. -/
def filter_torrents_not_in_torrent_dir (torrents : List Torrent)
    (stems : List String) : List Torrent :=
  torrents.filter (fun t => !((dir_ids stems).contains t.id))

/-- C5: a release is excluded by the on-disk filter iff some file stem's
trailing digit run parses to its id; a stem with no trailing digits never
yields an id; `foo-12345` excludes id `12345` and `foo` excludes nothing. -/
theorem C5_on_disk_filter (ts : List Torrent) (stems : List String) :
    (∀ t, t ∈ filter_torrents_not_in_torrent_dir ts stems ↔
      (t ∈ ts ∧ ¬∃ s ∈ stems, stem_id s = some t.id)) ∧
    (∀ s : String, trailing_digits s = [] → stem_id s = none) ∧
    stem_id ("foo-12345") = some 12345 ∧ stem_id ("foo") = none := by
  refine ⟨?_, ?_, by decide, by decide⟩
  · intro t
    simp only [filter_torrents_not_in_torrent_dir, List.mem_filter,
      Bool.not_eq_true', List.contains, List.elem_eq_mem,
      decide_eq_false_iff_not, dir_ids, List.mem_filterMap]
  · intro s hs
    simp [stem_id, hs, parse_u32, parseDigits]

/-- Witness for C5: the release with id `12345` is excluded when the
directory holds a file with stem `foo-12345`. -/
theorem C5_on_disk_filter_witness :
    mkT 12345 ("CD") ("320") ∉
      filter_torrents_not_in_torrent_dir [mkT 12345 ("CD") ("320")] ["foo-12345"] := by
  intro hmem
  have h := ((C5_on_disk_filter [mkT 12345 ("CD") ("320")] ["foo-12345"]).1 _).mp hmem
  exact h.2 ⟨"foo-12345", by simp, by decide⟩

/-! ### Catalog payloads and normalization (`transform_groups`) -/

/-- Wire shape of one torrent (struct `TorrentApi`). -/
structure TorrentApi where
  torrent_id : Nat
  media : String
  format : String
  encoding : String
  file_count : Nat
  size : Nat
deriving DecidableEq, Repr

/-- Artist-payload group (struct `TorrentGroupArtist`): year and release type
arrive as integers. -/
structure TorrentGroupArtist where
  name : String
  year : Nat
  release_type : Nat
  torrents : List TorrentApi
deriving DecidableEq, Repr

/-- One credited artist (struct `Artist`). -/
structure Artist where
  name : String
deriving DecidableEq, Repr

/-- struct `MusicInfo`. -/
structure MusicInfo where
  artists : List Artist
deriving DecidableEq, Repr

/-- Collage-payload group (struct `TorrentGroupCollage`): year and release
type arrive as strings. -/
structure TorrentGroupCollage where
  name : String
  year : String
  release_type : String
  music_info : MusicInfo
  torrents : List TorrentApi
deriving DecidableEq, Repr

/-- struct `ArtistData`. -/
structure ArtistData where
  id : Nat
  name : String
  torrent_groups : List TorrentGroupArtist
deriving DecidableEq, Repr

/-- struct `CollageData`. -/
structure CollageData where
  id : Nat
  name : String
  collage_category_name : String
  torrent_groups : List TorrentGroupCollage
deriving DecidableEq, Repr

/-- enum `GroupData`. -/
inductive GroupData where
  | artistData (a : ArtistData)
  | collageData (c : CollageData)
deriving DecidableEq, Repr

/-- Function `transform_groups`, parameterized by the external HTML-entity decoder
`decode` (library call `html_escape::decode_html_entities`).  A failing
`parse::<u32>().unwrap()` on a collage group's string-typed `year` or
`release_type` is a panic, modelled as `none`; the artist branch never
fails.  Note the artist branch decodes both names while the collage branch
copies `g.name` and the joined artist names verbatim. -/
def transform_groups (decode : String → String) (groups : GroupData)
    (weight : Nat) : Option (List (List Torrent)) :=
  match groups with
  | .artistData artist =>
    some (artist.torrent_groups.map (fun g =>
      g.torrents.map (fun t =>
        { id := t.torrent_id
          album_name := decode g.name
          artist_names := decode artist.name
          year := g.year
          release_type := g.release_type
          media := t.media
          format := t.format
          encoding := t.encoding
          file_count := t.file_count
          weight := weight
          size := t.size })))
  | .collageData collage =>
    collage.torrent_groups.mapM (fun g =>
      let artist_names :=
        String.intercalate (", ") (g.music_info.artists.map (fun a => a.name))
      g.torrents.mapM (fun t => do
        let year ← parse_u32 g.year.data
        let rt ← parse_u32 g.release_type.data
        pure { id := t.torrent_id
               album_name := g.name
               artist_names := artist_names
               year := year
               release_type := rt
               media := t.media
               format := t.format
               encoding := t.encoding
               file_count := t.file_count
               weight := weight
               size := t.size }))

/-! ### Persistence (`Database::new`, `store_data`) -/

/-- A row of the `fetches` audit table. -/
structure FetchRow where
  id : Nat
  type : Nat
  name : String
deriving DecidableEq, Repr

/-- The two tables owned by the store. -/
structure DB where
  fetches : List FetchRow
  torrents : List Torrent
deriving DecidableEq, Repr

/-- A freshly created database: both `CREATE TABLE IF NOT EXISTS` statements
leave empty tables. -/
def DB.new : DB := ⟨[], []⟩

/-- Statement `INSERT INTO fetches ... ON CONFLICT(id, type) DO NOTHING`. -/
def record_fetch (fetches : List FetchRow) (i ty : Nat) (name : String) :
    List FetchRow :=
  if fetches.any (fun f => f.id == i && f.type == ty) then fetches
  else fetches ++ [⟨i, ty, name⟩]

/-- Statement `INSERT OR REPLACE INTO torrents` keyed by `id`: SQLite deletes any
conflicting row and inserts the new one; the driver reports 1 affected
row. -/
def upsert_torrent (tbl : List Torrent) (t : Torrent) : List Torrent × Nat :=
  (tbl.filter (fun r => r.id != t.id) ++ [t], 1)

/-- The per-group loop of `store_data`: select a variant, upsert it when
present, count upserts the driver reports as affecting rows. -/
def store_groups (tbl : List Torrent) : List (List Torrent) → List Torrent × Nat
  | [] => (tbl, 0)
  | g :: gs =>
    match select_variant g with
    | none => store_groups tbl gs
    | some t =>
      let p := upsert_torrent tbl t
      let q := store_groups p.1 gs
      (q.1, (if p.2 > 0 then 1 else 0) + q.2)

/-- Source id recorded into `fetches`. -/
def gid : GroupData → Nat
  | .artistData a => a.id
  | .collageData c => c.id

/-- Source type code recorded into `fetches` (artist 0, collage 1). -/
def gtype : GroupData → Nat
  | .artistData _ => 0
  | .collageData _ => 1

/-- Source name recorded into `fetches`. -/
def gname : GroupData → String
  | .artistData a => a.name
  | .collageData c => c.name

/-- Method `Database::store_data`: record the fetch, normalize, then
select-and-upsert per group.  A collage parse panic (`none` from
`transform_groups`) aborts after the fetch insert with no torrent row
written. -/
def store_data (decode : String → String) (db : DB) (gd : GroupData)
    (weight : Nat) : DB × Option Nat :=
  let db1 : DB := ⟨record_fetch db.fetches (gid gd) (gtype gd) (gname gd),
    db.torrents⟩
  match transform_groups decode gd weight with
  | none => (db1, none)
  | some groups =>
    let p := store_groups db1.torrents groups
    (⟨db1.fetches, p.1⟩, some p.2)

/-- A sequence of `Fetch` invocations against the same store, each its own
process run. -/
def run (decode : String → String) (db : DB) (ops : List (GroupData × Nat)) :
    DB :=
  ops.foldl (fun d op => (store_data decode d op.1 op.2).1) db

/-- C6: `INSERT OR REPLACE` of the same release twice leaves the stored table
identical to applying it once, while the reported per-call affected-row
count is positive on both calls. -/
theorem C6_upsert_idempotent (tbl : List Torrent) (t : Torrent) :
    (upsert_torrent (upsert_torrent tbl t).1 t).1 = (upsert_torrent tbl t).1 ∧
      0 < (upsert_torrent tbl t).2 ∧
      0 < (upsert_torrent (upsert_torrent tbl t).1 t).2 := by
  refine ⟨?_, by simp [upsert_torrent], by simp [upsert_torrent]⟩
  simp only [upsert_torrent, List.filter_append]
  rw [List.filter_filter]
  simp

/-- The variant-selection filter predicate, as a proposition on a stored
release. -/
def variantOk (t : Torrent) : Prop :=
  t.release_type = 1 ∧ t.format = "MP3" ∧
    (t.media = "CD" ∨ t.media = "WEB") ∧
    (t.encoding = "V0 (VBR)" ∨ t.encoding = "320")

/-- The C7 invariant on the stored torrents table. -/
def Inv (tbl : List Torrent) : Prop :=
  (tbl.map (fun t => t.id)).Nodup ∧ ∀ t ∈ tbl, variantOk t

theorem select_variant_mem {g : List Torrent} {t : Torrent}
    (h : select_variant g = some t) : t ∈ survivors g := by
  apply mem_of_mem_sortByRank (l := survivors g)
  cases hs : sortByRank (survivors g) with
  | nil => rw [select_variant, hs] at h; simp at h
  | cons a s =>
    rw [select_variant, hs] at h
    simp only [List.head?_cons, Option.some_inj] at h
    simp [hs, h]

theorem select_variant_ok {g : List Torrent} {t : Torrent}
    (h : select_variant g = some t) : variantOk t := by
  have := (mem_survivors g t).mp (select_variant_mem h)
  exact ⟨this.2.1, this.2.2.1, this.2.2.2.1, this.2.2.2.2⟩

theorem upsert_torrent_inv {tbl : List Torrent} {t : Torrent}
    (h : Inv tbl) (ht : variantOk t) : Inv (upsert_torrent tbl t).1 := by
  obtain ⟨hnd, hok⟩ := h
  constructor
  · simp only [upsert_torrent, List.map_append, List.map_cons, List.map_nil]
    rw [List.nodup_append]
    refine ⟨?_, List.nodup_singleton _, ?_⟩
    · exact hnd.sublist ((tbl.filter_sublist).map (fun t => t.id))
    · intro x hx
      simp only [List.mem_map, List.mem_filter, bne_iff_ne] at hx
      obtain ⟨r, ⟨_, hne⟩, hxid⟩ := hx
      simp only [List.mem_singleton]
      rw [← hxid]
      exact hne
  · intro u hu
    simp only [upsert_torrent, List.mem_append, List.mem_filter,
      List.mem_singleton] at hu
    rcases hu with ⟨hu, _⟩ | hu
    · exact hok u hu
    · rw [hu]; exact ht

theorem store_groups_inv {tbl : List Torrent} (gs : List (List Torrent))
    (h : Inv tbl) : Inv (store_groups tbl gs).1 := by
  induction gs generalizing tbl with
  | nil => simpa [store_groups] using h
  | cons g gs ih =>
    cases hsel : select_variant g with
    | none => simpa [store_groups, hsel] using ih h
    | some t =>
      have h1 : Inv (upsert_torrent tbl t).1 :=
        upsert_torrent_inv h (select_variant_ok hsel)
      simpa [store_groups, hsel] using ih h1

theorem store_data_inv (decode : String → String) {db : DB} (gd : GroupData)
    (w : Nat) (h : Inv db.torrents) :
    Inv (store_data decode db gd w).1.torrents := by
  cases htr : transform_groups decode gd w with
  | none => simpa [store_data, htr] using h
  | some groups => simpa [store_data, htr] using store_groups_inv groups h

/-- C7: after any sequence of store operations on a fresh database, the
torrents table has at most one row per id, and every stored row satisfies
the variant selector's filter predicate. -/
theorem C7_store_invariant (decode : String → String)
    (ops : List (GroupData × Nat)) :
    ((run decode DB.new ops).torrents.map (fun t => t.id)).Nodup ∧
      ∀ t ∈ (run decode DB.new ops).torrents, variantOk t := by
  suffices h : ∀ db : DB, Inv db.torrents → Inv (run decode db ops).torrents by
    exact h DB.new ⟨List.nodup_nil, fun t ht => absurd ht (by simp [DB.new])⟩
  induction ops with
  | nil => intro db h; simpa [run] using h
  | cons op ops ih =>
    intro db h
    have h1 := store_data_inv decode op.1 op.2 h
    simpa [run] using ih _ h1

/-- An artist payload used by witnesses. -/
def a8 : ArtistData :=
  ⟨5, "A &amp; B", [⟨"Alb", 2000, 1, [⟨41, "CD", "MP3", "320", 9, 900⟩]⟩]⟩

/-- Witness for C7 at a concrete one-operation run: the id column is
duplicate-free. -/
theorem C7_store_invariant_witness :
    (((run (fun s => s) DB.new [(.artistData a8, 10)]).torrents.map
      (fun t => t.id))).Nodup :=
  (C7_store_invariant (fun s => s) [(.artistData a8, 10)]).1

/-! ### HTML decoding of names (C8) -/

theorem mapM_option_mem {α β : Type} {f : α → Option β} :
    ∀ {l : List α} {out : List β}, l.mapM f = some out →
      ∀ b ∈ out, ∃ a ∈ l, f a = some b := by
  intro l
  induction l with
  | nil =>
    intro out h b hb
    simp only [List.mapM_nil, Option.pure_def, Option.some.injEq] at h
    subst h
    simp at hb
  | cons a l ih =>
    intro out h b hb
    rw [List.mapM_cons] at h
    cases hfa : f a with
    | none => rw [hfa] at h; simp at h
    | some x =>
      rw [hfa] at h
      cases hml : l.mapM f with
      | none => rw [hml] at h; simp at h
      | some xs =>
        rw [hml] at h
        simp at h
        subst h
        rcases List.mem_cons.mp hb with hb | hb
        · exact ⟨a, List.mem_cons_self a l, by rw [hfa, hb]⟩
        · obtain ⟨a', ha', hfa'⟩ := ih hml b hb
          exact ⟨a', List.mem_cons_of_mem a ha', hfa'⟩

/-- C8 (amended): only Artist-payload records carry HTML-decoded names; a
Collage-payload record's `album_name` is the raw group name and its
`artist_names` the comma-join of the raw per-work artist names. -/
theorem C8_html_decoding (decode : String → String) (w : Nat) :
    (∀ (a : ArtistData) (out : List (List Torrent)),
      transform_groups decode (.artistData a) w = some out →
      ∀ gp ∈ out, ∀ t ∈ gp,
        t.artist_names = decode a.name ∧
          ∃ g ∈ a.torrent_groups, t.album_name = decode g.name) ∧
    (∀ (c : CollageData) (out : List (List Torrent)),
      transform_groups decode (.collageData c) w = some out →
      ∀ gp ∈ out, ∀ t ∈ gp, ∃ g ∈ c.torrent_groups,
        t.album_name = g.name ∧
          t.artist_names =
            String.intercalate (", ")
              (g.music_info.artists.map (fun ar => ar.name))) := by
  constructor
  · intro a out h gp hgp t ht
    simp only [transform_groups, Option.some.injEq] at h
    subst h
    simp only [List.mem_map] at hgp
    obtain ⟨g, hg, rfl⟩ := hgp
    simp only [List.mem_map] at ht
    obtain ⟨ta, _, rfl⟩ := ht
    exact ⟨rfl, g, hg, rfl⟩
  · intro c out h gp hgp t ht
    obtain ⟨g, hg, hfg⟩ := mapM_option_mem h gp hgp
    obtain ⟨ta, hta, hft⟩ := mapM_option_mem hfg t ht
    cases hy : parse_u32 g.year.data with
    | none => rw [hy] at hft; simp at hft
    | some y =>
      rw [hy] at hft
      cases hr : parse_u32 g.release_type.data with
      | none => rw [hr] at hft; simp at hft
      | some rt =>
        rw [hr] at hft
        simp at hft
        subst hft
        exact ⟨g, hg, rfl, rfl⟩

/-- Decoder for the `&amp;` entity: the behaviour of the external
`html_escape::decode_html_entities` on inputs whose only entity is `&amp;`,
used as a concrete decoder instance. -/
def decodeAmp : List Char → List Char
  | [] => []
  | '&' :: 'a' :: 'm' :: 'p' :: ';' :: rest => '&' :: decodeAmp rest
  | c :: rest => c :: decodeAmp rest

/-- String version of `decodeAmp`. -/
def dec0 (s : String) : String := String.mk (decodeAmp s.data)

/-- A collage payload whose group name contains an HTML entity. -/
def c8c : CollageData :=
  ⟨3, "Best of", "Theme",
    [⟨"Tom &amp; Jerry", "2001", "1", ⟨[⟨"Tom"⟩]⟩,
      [⟨42, "CD", "MP3", "320", 9, 900⟩]⟩]⟩

/-- The record the collage branch actually produces for `c8c`: the album name
is kept verbatim. -/
def c8out : Torrent :=
  ⟨42, "Tom &amp; Jerry", "Tom", 2001, 1, "CD", "MP3", "320", 9, 900, 10⟩

/-- Counterexample to C8 as stated: for a Collage payload the produced
`album_name` is the raw API string, not its HTML-entity-decoded form. -/
theorem C8_counterexample :
    transform_groups dec0 (.collageData c8c) 10 = some [[c8out]] ∧
      dec0 ("Tom &amp; Jerry") = "Tom & Jerry" ∧
      c8out.album_name ≠ dec0 ("Tom &amp; Jerry") :=
  ⟨by decide, by decide, by decide⟩

/-- The record the artist branch produces for `a8` under `dec0`: both names
decoded. -/
def tA8 : Torrent :=
  ⟨41, "Alb", "A & B", 2000, 1, "CD", "MP3", "320", 9, 900, 10⟩

/-- Witness for C8 (amended) on the artist branch: the produced artist name
is the decoded API string. -/
theorem C8_html_decoding_witness :
    tA8.artist_names = dec0 ("A &amp; B") := by
  have h := (C8_html_decoding dec0 10).1 a8 [[tA8]] (by decide) [tA8]
    (by simp) tA8 (by simp)
  exact h.1

/-! ### Downloader (`download_torrent`, `write_torrent`) and submission -/

/-- Target-directory contents as (file name, file content) pairs. -/
abbrev FS := List (String × String)

/-- Rust `File::create` plus copying `content`: truncate or create the file of
that name. -/
def setFile (fs : FS) (name content : String) : FS :=
  fs.filter (fun e => e.1 != name) ++ [(name, content)]

/-- Rust `fs::remove_file`. -/
def removeFile (fs : FS) (name : String) : FS :=
  fs.filter (fun e => e.1 != name)

/-- An HTTP response as the downloader observes it: `status().is_success()`,
the `Content-disposition` header when present, and the body — `none` when
reading the body (`response.bytes().await`) fails mid-transfer. -/
structure HttpResp where
  success : Bool
  content_disposition : Option String
  body : Option String
deriving DecidableEq, Repr

/-- The literal of the regex `filename="([^"]+)"` up to the capture. -/
def fnPattern : List Char := ['f', 'i', 'l', 'e', 'n', 'a', 'm', 'e', '=', '"']

/-- Attempt the regex match at the current position: the literal
`filename="`, then a nonempty maximal run of non-quote characters, then a
closing quote. -/
def matchFilenameAt (s : List Char) : Option String :=
  if fnPattern.isPrefixOf s then
    let t := s.drop fnPattern.length
    let cap := t.takeWhile (fun c => c != '"')
    if cap ≠ [] ∧ (t.drop cap.length).head? = some '"' then
      some (String.mk cap)
    else none
  else none

/-- Leftmost match of the regex `filename="([^"]+)"`: try every position
left to right. -/
def findFilename : List Char → Option String
  | [] => none
  | c :: rest =>
    match matchFilenameAt (c :: rest) with
    | some f => some f
    | none => findFilename rest

/-- Extract the quoted filename from a `Content-disposition` value via
`Regex::captures`. -/
def extract_filename (cd : String) : Option String := findFilename cd.data

/-- Function `write_torrent`: take the `Content-disposition` header, extract the
quoted filename, `File::create` the file under that name in the target
directory, then read the body and copy it into the file.  Returns the
written filename on success, `none` on error. -/
def write_torrent (fs : FS) (r : HttpResp) : FS × Option String :=
  match r.content_disposition with
  | none => (fs, none)
  | some cd =>
    match extract_filename cd with
    | none => (fs, none)
    | some fname =>
      let fs1 := setFile fs fname ("")
      match r.body with
      | none => (fs1, none)
      | some b => (setFile fs1 fname b, some fname)

/-- Function `download_torrent`: issue the first request with the caller's `use_fl`
flag (`r1` is the environment's response to it); on a non-success status,
issue a second request with the freeload flag off (`r2` is its response);
write from whichever response had a success status.  The third component
is the trace of `usetoken` flags of the requests actually issued. -/
def download_torrent (use_fl : Bool) (r1 r2 : HttpResp) (fs : FS) :
    FS × Option String × List Bool :=
  if r1.success then
    let p := write_torrent fs r1
    (p.1, p.2, [use_fl])
  else
    if r2.success then
      let p := write_torrent fs r2
      (p.1, p.2, [use_fl, false])
    else (fs, none, [use_fl, false])

/-- Outcome of `Command::output()` for the submission command: `spawnErr`
when the command could not be run at all (`output.is_err()` in the
source), `exited code` when it ran and exited with the given status. -/
inductive CmdOutput where
  | spawnErr (msg : String)
  | exited (code : Nat)
deriving DecidableEq, Repr

/-- The per-item submission step of `add_new_torrents_for_download`: on a
spawn error the just-written file is removed and the error propagates
(second component `true`); otherwise processing continues — the exit
status is never inspected. -/
def submit_step (fs : FS) (path : String) (out : CmdOutput) : FS × Bool :=
  match out with
  | .spawnErr _ => (removeFile fs path, true)
  | .exited _ => (fs, false)

/-- The failing response used in the downloader counterexamples. -/
def rFail : HttpResp := ⟨false, none, none⟩

/-- A successful, well-formed response carrying the file `a.torrent`. -/
def rGood : HttpResp :=
  ⟨true, some ("attachment; filename=\"a.torrent\""), some ("DATA")⟩

/-- Counterexample to C2 as stated: with the freeload flag off and a failing
first (plain) request, the machine issues a second plain request rather
than ending in Failed; when that second request succeeds the final state
is Done with the file written. -/
theorem C2_counterexample :
    (download_torrent false rFail rGood []).2.2 = [false, false] ∧
      (download_torrent false rFail rGood []).2.1 = some ("a.torrent") ∧
      (download_torrent false rFail rGood []).1 = [("a.torrent", "DATA")] :=
  ⟨by decide, by decide, by decide⟩

/-- C2 (amended): a successful first request issues no further request; a
failed first request is always followed by exactly one plain request,
whatever the flag (so also flag-off runs retry once); with the flag off
the first request is already plain; a failed freeload request followed
by a successful well-formed plain response ends in Done with the plain
response's file written; and when both issued requests fail, the final
state is Failed with the directory unchanged (no file left on disk). -/
theorem C2_download_state_machine (use_fl : Bool) (r1 r2 : HttpResp) (fs : FS) :
    (r1.success = true → (download_torrent use_fl r1 r2 fs).2.2 = [use_fl]) ∧
    (r1.success = false →
      (download_torrent use_fl r1 r2 fs).2.2 = [use_fl, false]) ∧
    ((download_torrent false r1 r2 fs).2.2.head? = some false) ∧
    (∀ cd fname b, r1.success = false → r2.success = true →
      r2.content_disposition = some cd → extract_filename cd = some fname →
      r2.body = some b →
      (download_torrent use_fl r1 r2 fs).2.1 = some fname ∧
        (download_torrent use_fl r1 r2 fs).1 =
          setFile (setFile fs fname ("")) fname b) ∧
    (r1.success = false → r2.success = false →
      (download_torrent use_fl r1 r2 fs).2.1 = none ∧
        (download_torrent use_fl r1 r2 fs).1 = fs) := by
  refine ⟨?_, ?_, ?_, ?_, ?_⟩
  · intro h
    simp [download_torrent, h]
  · intro h
    by_cases h2 : r2.success <;> simp [download_torrent, h, h2]
  · by_cases h1 : r1.success <;> by_cases h2 : r2.success <;>
      simp [download_torrent, h1, h2]
  · intro cd fname b h1 h2 hcd hfn hb
    constructor <;> simp [download_torrent, h1, h2, write_torrent, hcd, hfn, hb]
  · intro h1 h2
    constructor <;> simp [download_torrent, h1, h2]

/-- Witness for C2 (amended): flag on, freeload request fails, plain request
succeeds; the trace is freeload-then-plain and the plain file is written. -/
theorem C2_download_state_machine_witness :
    (download_torrent true rFail rGood []).2.2 = [true, false] ∧
      (download_torrent true rFail rGood []).2.1 = some ("a.torrent") := by
  have h := C2_download_state_machine true rFail rGood []
  exact ⟨h.2.1 rfl,
    (h.2.2.2.1 ("attachment; filename=\"a.torrent\"") ("a.torrent") ("DATA")
      rfl rfl rfl (by decide) rfl).1⟩

/-- A success response whose `Content-disposition` parses but whose body
read fails mid-transfer. -/
def rInterrupted : HttpResp :=
  ⟨true, some ("attachment; filename=\"b.torrent\""), none⟩

/-- Counterexample to C9 as stated: when the transfer fails after the write
begins, the error result still leaves a file (the freshly created empty
one) visible under the final extracted name — the directory state is not
unchanged. -/
theorem C9_counterexample :
    (write_torrent [] rInterrupted).2 = none ∧
      (write_torrent [] rInterrupted).1 = [("b.torrent", "")] ∧
      (write_torrent [] rInterrupted).1 ≠ [] :=
  ⟨by decide, by decide, by decide⟩

/-- C9 (amended): the Write stage is not all-or-nothing.  A missing header
or an unmatched filename pattern fails before the write begins and leaves
the directory unchanged; but the file is created under the final name
before the body is read, so a body-read failure leaves an empty file
visible under the final extracted filename, and a completed transfer
leaves the body under that name. -/
theorem C9_write_stage (fs : FS) (r : HttpResp) :
    (r.content_disposition = none → write_torrent fs r = (fs, none)) ∧
    (∀ cd, r.content_disposition = some cd → extract_filename cd = none →
      write_torrent fs r = (fs, none)) ∧
    (∀ cd fname, r.content_disposition = some cd →
      extract_filename cd = some fname → r.body = none →
      write_torrent fs r = (setFile fs fname (""), none)) ∧
    (∀ cd fname b, r.content_disposition = some cd →
      extract_filename cd = some fname → r.body = some b →
      write_torrent fs r = (setFile (setFile fs fname ("")) fname b, some fname)) := by
  refine ⟨?_, ?_, ?_, ?_⟩ <;> intros <;> simp [write_torrent, *]

/-- Witness for C9 (amended) at the interrupted transfer: the created empty
file remains under the final name. -/
theorem C9_write_stage_witness :
    write_torrent [] rInterrupted = ([("b.torrent", "")], none) :=
  (C9_write_stage [] rInterrupted).2.2.1 ("attachment; filename=\"b.torrent\"")
    ("b.torrent") rfl (by decide) rfl

/-- The directory contents used in the submission counterexample. -/
def fsSub : FS := [("a.torrent", "DATA")]

/-- Counterexample to C10 as stated: a submission command that runs and is
rejected (nonzero exit status) is treated as success — the
written-but-unsubmitted file is kept and no error propagates. -/
theorem C10_counterexample :
    submit_step fsSub ("a.torrent") (.exited 1) = (fsSub, false) ∧
      ("a.torrent", "DATA") ∈ (submit_step fsSub ("a.torrent") (.exited 1)).1 :=
  ⟨by decide, by decide⟩

/-- C10 (amended): only a submission command that fails to run triggers
cleanup — on a spawn error the just-written file is deleted (no entry
under the path remains) before the error propagates; when the command
runs, its exit status is not inspected, the file is kept and no error
propagates. -/
theorem C10_submission_cleanup (fs : FS) (path msg : String) (c : Nat) :
    submit_step fs path (.spawnErr msg) = (removeFile fs path, true) ∧
      (∀ e ∈ (submit_step fs path (.spawnErr msg)).1, e.1 ≠ path) ∧
      submit_step fs path (.exited c) = (fs, false) := by
  refine ⟨rfl, ?_, rfl⟩
  intro e he
  simp only [submit_step, removeFile, List.mem_filter, bne_iff_ne] at he
  exact he.2

/-- Witness for C10 (amended): a spawn error deletes the only file and
propagates the error. -/
theorem C10_submission_cleanup_witness :
    submit_step fsSub ("a.torrent") (.spawnErr ("io error")) = ([], true) := by
  have h := (C10_submission_cleanup fsSub ("a.torrent") ("io error") 0).1
  rw [h]
  decide

end Redman
